import Mathlib

/-!
Verification of the temporal scheduling core (`src/services/timeService.ts`).

A shallow embedding of the calendar/scheduling engine of the KONKA productivity
tracker.  JavaScript `Date` values are modelled as `Int` milliseconds since the
Unix epoch, with the local timezone fixed to UTC and no DST (the specification
declares all times to be naive local-clock values).  Each `js...` helper below
models the corresponding `Date` mutator/accessor used by the source
(`setHours`, `setMinutes`, `getDay`, `getDate`, ...) as a pure function on the
millisecond timestamp.  The record types mirror `src/types.ts`, restricted to
the fields the scheduling core reads.
-/

namespace Konka

/-- Milliseconds per day. -/
def msPerDay : Int := 86400000

/-- Milliseconds per hour. -/
def msPerHour : Int := 3600000

/-- Milliseconds per minute. -/
def msPerMinute : Int := 60000

/-- The calendar day number of a timestamp (days since 1970-01-01, floored).
`Int` division is Euclidean, which for the positive divisor coincides with
flooring, matching how a local `Date` truncates to its calendar day. -/
def jsDayNumber (t : Int) : Int := t / 86400000

/-- `d.setHours(0,0,0,0)`: local midnight of the timestamp's calendar day. -/
def jsMidnight (t : Int) : Int := 86400000 * jsDayNumber t

/-- `d.getDay()`: weekday, 0 = Sunday .. 6 = Saturday.  1970-01-01 was a
Thursday (= 4). -/
def jsGetDay (t : Int) : Int := (jsDayNumber t + 4) % 7

/-- `d.getHours()`: the hour-of-day field. -/
def jsGetHours (t : Int) : Int := (t - jsMidnight t) / 3600000

/-- `d.getMinutes()`: the minute field. -/
def jsGetMinutes (t : Int) : Int := ((t - jsMidnight t) % 3600000) / 60000

/-- `d.setHours(h)` (one-argument form): replaces the hour field, keeping
minutes, seconds and milliseconds; out-of-range hours roll the date, which the
timestamp arithmetic reproduces. -/
def jsSetHours1 (t h : Int) : Int :=
  jsMidnight t + h * 3600000 + (t - jsMidnight t) % 3600000

/-- `d.setHours(h, m)` (two-argument form): replaces hours and minutes,
keeping seconds and milliseconds. -/
def jsSetHours2 (t h m : Int) : Int :=
  jsMidnight t + h * 3600000 + m * 60000 + (t - jsMidnight t) % 60000

/-- `d.setHours(h, m, s, ms)` (four-argument form): replaces all four
time-of-day fields. -/
def jsSetHours4 (t h m s ms : Int) : Int :=
  jsMidnight t + h * 3600000 + m * 60000 + s * 1000 + ms

/-- `d.setMinutes(m)`: replaces the minute field, keeping the hour, seconds
and milliseconds. -/
def jsSetMinutes (t m : Int) : Int :=
  jsMidnight t + jsGetHours t * 3600000 + m * 60000 + (t - jsMidnight t) % 60000

/-- Proleptic-Gregorian civil date `(year, month, day)` of a day number
(days since 1970-01-01); the standard era-based algorithm used to model
`getFullYear` / `getMonth` / `getDate` / `toISOString`. -/
def civilFromDayNumber (z : Int) : Int × Nat × Nat :=
  let zs := z + 719468
  let era := zs / 146097
  let doe := (zs % 146097).toNat
  let yoe := (doe - doe / 1460 + doe / 36524 - doe / 146096) / 365
  let doy := doe - (365 * yoe + yoe / 4 - yoe / 100)
  let mp := (5 * doy + 2) / 153
  let d := doy - (153 * mp + 2) / 5 + 1
  let m := if mp < 10 then mp + 3 else mp - 9
  ((if m ≤ 2 then (era * 400 + yoe) + 1 else era * 400 + yoe), m, d)

/-- `d.getDate()`: the day-of-month (1..31) of a timestamp's calendar day. -/
def jsGetDate (t : Int) : Nat := (civilFromDayNumber (jsDayNumber t)).2.2

/-- `d.getMonth()`: the JavaScript 0-based month (0..11). -/
def jsGetMonth (t : Int) : Nat := (civilFromDayNumber (jsDayNumber t)).2.1 - 1

/-- Zero-pad a number to two digits, as in an ISO date. -/
def pad2 (n : Nat) : String := if n < 10 then "0" ++ toString n else toString n

/-- Zero-pad a year to four digits, as in an ISO date. -/
def pad4 (y : Int) : String :=
  if y < 0 then toString y
  else if y < 10 then "000" ++ toString y
  else if y < 100 then "00" ++ toString y
  else if y < 1000 then "0" ++ toString y
  else toString y

/-- `iterator.toISOString().split('T')[0]`: the `YYYY-MM-DD` key of a
timestamp's calendar day (local time = UTC in this model). -/
def dateKey (t : Int) : String :=
  let c := civilFromDayNumber (jsDayNumber t)
  pad4 c.1 ++ "-" ++ pad2 c.2.1 ++ "-" ++ pad2 c.2.2

/-- `haystack.includes(needle)` on strings, as a scan over character lists. -/
def jsIncludes (needle : List Char) : List Char → Bool
  | [] => needle.isEmpty
  | c :: rest => needle.isPrefixOf (c :: rest) || jsIncludes needle rest

/-! ## The data model (`src/types.ts`), restricted to the fields the core reads -/

/-- `RecurrenceType` from `src/types.ts`. -/
inductive RecurrenceType where
  | once | daily | weekly | monthly | yearly | custom
  deriving DecidableEq, Repr

/-- `Task.status` from `src/types.ts`. -/
inductive TaskStatus where
  | active | archived
  deriving DecidableEq, Repr

/-- `Assignment.status` from `src/types.ts`. -/
inductive AssignmentStatus where
  | pending | inProgress | completed | overdue
  deriving DecidableEq, Repr

/-- `ActivityType` from `src/types.ts`. -/
inductive ActivityType where
  | sport | spiritual | intellectual | social | creative | rest | chore
  deriving DecidableEq, Repr

/-- `Task` from `src/types.ts` (scheduling-relevant fields).  `startDate` and
`endDate` are the timestamps of `new Date(task.startDate)` / `task.endDate`;
`time` is the parsed `"HH:MM"` pair when present. -/
structure Task where
  id : String
  title : String
  status : TaskStatus
  recurrence : RecurrenceType
  customDays : Option (List Int)
  time : Option (Int × Int)
  durationMinutes : Int
  startDate : Int
  endDate : Option Int
  completionHistory : List String
  color : Option String
  deriving DecidableEq, Repr

/-- `Assignment` from `src/types.ts` (scheduling-relevant fields). -/
structure Assignment where
  id : String
  courseId : String
  title : String
  dueDate : Int
  status : AssignmentStatus
  weight : Int
  type : String
  deriving DecidableEq, Repr

/-- `Course` from `src/types.ts` (scheduling-relevant fields). -/
structure Course where
  id : String
  name : String
  color : String
  schedule : Option String
  deriving DecidableEq, Repr

/-- `WellbeingActivity` from `src/types.ts` (scheduling-relevant fields);
`time` is the parsed `"HH:MM"` pair, `none` when absent/empty (falsy). -/
structure WellbeingActivity where
  name : String
  type : ActivityType
  durationMinutes : Int
  time : Option (Int × Int)
  deriving DecidableEq, Repr

/-- `WellbeingLog` from `src/types.ts` (scheduling-relevant fields). -/
structure WellbeingLog where
  id : String
  date : Int
  activities : List WellbeingActivity
  deriving DecidableEq, Repr

/-- `AppState` from `src/types.ts`, restricted to the four collections the
unifier reads.  `tasks` is optional because `getUnifiedEvents` guards it with
`if (data.tasks)`. -/
structure AppState where
  assignments : List Assignment
  courses : List Course
  wellbeing : List WellbeingLog
  tasks : Option (List Task)
  deriving DecidableEq, Repr

/-- `CalendarEvent.type` from `src/types.ts`. -/
inductive EventType where
  | Course | Assignment | Block | Wellbeing | Task
  deriving DecidableEq, Repr

/-- The `meta` back-reference payload of a calendar event, one constructor per
source kind. -/
inductive EventMeta where
  | course (courseId : String)
  | assignment (assignmentId : String) (weight : Int)
  | wellbeing (type : ActivityType)
  | task (taskId : String) (dateKey : String)
  deriving DecidableEq, Repr

/-- `CalendarEvent` from `src/types.ts`.  `isCompleted` is only set for task
events in the source; absence (undefined) is modelled as `false`. -/
structure CalendarEvent where
  id : String
  title : String
  start : Int
  «end» : Int
  type : EventType
  color : String
  isCompleted : Bool
  meta : EventMeta
  deriving DecidableEq, Repr

/-! ## `parseCourseSchedule` (`src/services/timeService.ts`, lines 27-88) -/

/-- Numeric value of a digit character. -/
def digitVal (c : Char) : Int := (c.toNat - 48 : Nat)

/-- The optional `(:(\d{2}))?` group of the time regex: minutes are taken only
when a `:` is immediately followed by two digits, else the group matches empty
and minutes default to 0. -/
def minutesPart : List Char → Int
  | ':' :: a :: b :: _ => if a.isDigit && b.isDigit then 10 * digitVal a + digitVal b else 0
  | _ => 0

/-- Continue the regex match after a first digit `c`: `\d{1,2}` is greedy, so a
second digit is consumed when present, then the optional minutes group. -/
def timeFrom (c : Char) : List Char → Int × Int
  | [] => (digitVal c, 0)
  | d :: rest =>
    if d.isDigit then (10 * digitVal c + digitVal d, minutesPart rest)
    else (digitVal c, minutesPart (d :: rest))

/-- `lower.match(/(\d{1,2})(:(\d{2}))?\s*(am|pm)?/)`, reduced to the two
capture groups the source reads: the leftmost match starts at the first digit
of the string; `none` when the string holds no digit. -/
def findTimeMatch : List Char → Option (Int × Int)
  | [] => none
  | c :: rest => if c.isDigit then some (timeFrom c rest) else findTimeMatch rest

/-- The 12-hour to 24-hour conversion of the source:
`if (isPM && hours < 12) hours += 12; if (!isPM && hours === 12) hours = 0`. -/
def convertHours (isPM : Bool) (hours : Int) : Int :=
  if isPM && hours < 12 then hours + 12
  else if !isPM && hours = 12 then 0
  else hours

/-- The `daysMap` object literal, in insertion order (`Object.keys` order). -/
def daysMap : List (String × Int) :=
  [("sun", 0), ("mon", 1), ("tue", 2), ("wed", 3), ("thu", 4), ("fri", 5), ("sat", 6),
   ("m", 1), ("t", 2), ("w", 3), ("th", 4), ("f", 5)]

/-- `if (!activeDays.includes(v)) activeDays.push(v)`. -/
def pushUnique (l : List Int) (v : Int) : List Int :=
  if l.contains v then l else l ++ [v]

/-- The two-pass weekday scan: three-letter abbreviations first; if none
matched, fall back to the single/double-letter keys.  Both passes walk the
same `daysMap` in key order and deduplicate on insertion. -/
def scheduleActiveDays (lower : List Char) : List Int :=
  let first := daysMap.foldl
    (fun acc p => if p.1.length = 3 && jsIncludes p.1.data lower then pushUnique acc p.2 else acc) []
  if first.isEmpty then
    daysMap.foldl
      (fun acc p => if p.1.length < 3 && jsIncludes p.1.data lower then pushUnique acc p.2 else acc) []
  else first

/-- One emitted course block for weekday `dayIndex` of the current week.
`eventDate` is `startOfWeek + dayIndex` days at `hours:minutes`, and the end is
`endDate.setHours(hours + 1, minutes + 30)` evaluated on the event date's own
calendar day. -/
def courseBlock (startOfWeek hours minutes : Int) (courseName courseColor courseId : String)
    (dayIndex : Int) : CalendarEvent :=
  let eventDate := jsSetHours4 (startOfWeek + dayIndex * msPerDay) hours minutes 0 0
  let endDate := jsSetHours2 eventDate (hours + 1) (minutes + 30)
  { id := "course_" ++ courseId ++ "_" ++ toString dayIndex
    title := courseName
    start := eventDate
    «end» := endDate
    type := EventType.Course
    color := courseColor
    isCompleted := false
    meta := EventMeta.course courseId }

/-- `scheduleStr.toLowerCase()`, at the character-list level: Lean's
`String.toLower` is exactly `Char.toLower` mapped over the characters. -/
def lowerData (s : String) : List Char := s.data.map Char.toLower

/-- `parseCourseSchedule(scheduleStr, courseName, courseColor, courseId)`.
The call-time clock `new Date()` is passed explicitly as `now`;
`startOfWeek` is `now.setDate(now.getDate() - now.getDay())` followed by
`setHours(0,0,0,0)`, i.e. the midnight of the current week's Sunday. -/
def parseCourseSchedule (now : Int) (scheduleStr courseName courseColor courseId : String) :
    List CalendarEvent :=
  if scheduleStr = "" ∨ scheduleStr = "TBA" then []
  else
    let startOfWeek := jsMidnight (now - jsGetDay now * msPerDay)
    let lower := lowerData scheduleStr
    match findTimeMatch lower with
    | none => []
    | some (h0, minutes) =>
      let isPM := jsIncludes "pm".data lower
      let hours := convertHours isPM h0
      (scheduleActiveDays lower).map
        (courseBlock startOfWeek hours minutes courseName courseColor courseId)

/-! ## `generateTaskEvents` (`src/services/timeService.ts`, lines 90-143) -/

/-- Number of loop iterations of `while (iterator <= endRange)` starting from
the midnight `startMid` and stepping one day. -/
def dayIterCount (startMid endRange : Int) : Nat :=
  if startMid ≤ endRange then ((endRange - startMid) / 86400000 + 1).toNat else 0

/-- The successive values of the loop iterator: consecutive midnights from
`startMid` while `≤ endRange`. -/
def iteratedDays (startMid endRange : Int) : List Int :=
  (List.range (dayIterCount startMid endRange)).map
    (fun (k : Nat) => startMid + (k : Int) * 86400000)

/-- The per-day inclusion `switch (task.recurrence)`.  `once` compares
`toDateString()` values, i.e. calendar-day equality. -/
def shouldRender (task : Task) (iterator : Int) : Bool :=
  match task.recurrence with
  | RecurrenceType.daily => true
  | RecurrenceType.weekly => decide (jsGetDay iterator = jsGetDay task.startDate)
  | RecurrenceType.monthly => decide (jsGetDate iterator = jsGetDate task.startDate)
  | RecurrenceType.yearly =>
      decide (jsGetDate iterator = jsGetDate task.startDate) &&
      decide (jsGetMonth iterator = jsGetMonth task.startDate)
  | RecurrenceType.custom =>
      match task.customDays with
      | some ds => ds.contains (jsGetDay iterator)
      | none => false
  | RecurrenceType.once => decide (jsDayNumber iterator = jsDayNumber task.startDate)

/-- The rendered days: the iterated days of the window started at
`max(startRange, task.startDate)` truncated to midnight, filtered by the
recurrence rule.  The source never consults `task.endDate` here. -/
def taskDays (task : Task) (startRange endRange : Int) : List Int :=
  (iteratedDays (jsMidnight (max startRange task.startDate)) endRange).filter (shouldRender task)

/-- The event materialized for one rendered day: start at `task.time`
(default 9:00), end `setMinutes(m + (task.durationMinutes || 30))`. -/
def taskEvent (task : Task) (iterator : Int) : CalendarEvent :=
  let hm := task.time.getD (9, 0)
  let eventStart := jsSetHours2 iterator hm.1 hm.2
  let eventEnd := jsSetMinutes eventStart
    (hm.2 + (if task.durationMinutes = 0 then 30 else task.durationMinutes))
  let dateStr := dateKey iterator
  { id := "task_" ++ task.id ++ "_" ++ dateStr
    title := task.title
    start := eventStart
    «end» := eventEnd
    type := EventType.Task
    color := task.color.getD "#64748b"
    isCompleted := task.completionHistory.contains dateStr
    meta := EventMeta.task task.id dateStr }

/-- The events one task contributes: none when archived, else one per rendered
day. -/
def generateTaskEventsOne (task : Task) (startRange endRange : Int) : List CalendarEvent :=
  if task.status = TaskStatus.archived then []
  else (taskDays task startRange endRange).map (taskEvent task)

/-- `generateTaskEvents(tasks, startRange, endRange)`. -/
def generateTaskEvents (tasks : List Task) (startRange endRange : Int) : List CalendarEvent :=
  tasks.flatMap (fun t => generateTaskEventsOne t startRange endRange)

/-! ## `getUnifiedEvents` (`src/services/timeService.ts`, lines 145-208) -/

/-- The "due" marker event of a non-completed assignment inside the window:
start is the due time with `setHours(getHours() - 1)` (one hour earlier), end
is the due time; the color falls back from exam-alert to the linked course's
color to a default. -/
def assignmentEvent (data : AppState) (a : Assignment) : CalendarEvent :=
  let dueDate := a.dueDate
  let startDate := jsSetHours1 dueDate (jsGetHours dueDate - 1)
  let course := data.courses.find? (fun c => c.id = a.courseId)
  { id := "assign_" ++ a.id
    title := "DUE: " ++ a.title
    start := startDate
    «end» := dueDate
    type := EventType.Assignment
    color := if a.type = "Exam" then "#f43f5e"
             else match course with
                  | some c => if c.color = "" then "#a855f7" else c.color
                  | none => "#a855f7"
    isCompleted := false
    meta := EventMeta.assignment a.id a.weight }

/-- The assignment pass of the unifier: skip completed assignments, keep due
dates inside the closed window. -/
def assignmentEvents (data : AppState) (startRange endRange : Int) : List CalendarEvent :=
  data.assignments.filterMap (fun a =>
    if a.status = AssignmentStatus.completed then none
    else if startRange ≤ a.dueDate ∧ a.dueDate ≤ endRange then some (assignmentEvent data a)
    else none)

/-- The course pass of the unifier: parse every non-empty schedule string
(the `c.schedule` truthiness guard; an empty string also yields `[]` from the
parser's own guard, so `none` covers both falsy cases). -/
def courseEvents (data : AppState) (now : Int) : List CalendarEvent :=
  data.courses.flatMap (fun c =>
    match c.schedule with
    | none => []
    | some s => parseCourseSchedule now s c.name c.color c.id)

/-- One wellbeing activity event: anchored to the log's date at the activity's
time, for `act.durationMinutes || 30` minutes. -/
def activityEvent (log : WellbeingLog) (idx : Nat) (act : WellbeingActivity)
    (hm : Int × Int) : CalendarEvent :=
  let date := jsSetHours2 log.date hm.1 hm.2
  let endT := jsSetMinutes date
    (hm.2 + (if act.durationMinutes = 0 then 30 else act.durationMinutes))
  { id := "wb_" ++ log.id ++ "_" ++ toString idx
    title := act.name
    start := date
    «end» := endT
    type := EventType.Wellbeing
    color := "#10b981"
    isCompleted := false
    meta := EventMeta.wellbeing act.type }

/-- The wellbeing pass of the unifier: logs dated inside the closed window,
one event per activity carrying a time. -/
def wellbeingEvents (data : AppState) (startRange endRange : Int) : List CalendarEvent :=
  data.wellbeing.flatMap (fun log =>
    if startRange ≤ log.date ∧ log.date ≤ endRange then
      log.activities.enum.filterMap (fun p =>
        match p.2.time with
        | some hm => some (activityEvent log p.1 p.2 hm)
        | none => none)
    else [])

/-- `getUnifiedEvents(data, startRange, endRange)`: gather from the four
sources in order, concatenate, and stably sort ascending by start time (the
comparator is `(a, b) => a.start.getTime() - b.start.getTime()`; a stable sort
by that key is modelled by the stable `insertionSort`).  The call-time clock
feeding the course parser is passed explicitly as `now`. -/
def getUnifiedEvents (data : AppState) (now startRange endRange : Int) : List CalendarEvent :=
  (assignmentEvents data startRange endRange ++ courseEvents data now ++
    wellbeingEvents data startRange endRange ++
    generateTaskEvents (data.tasks.getD []) startRange endRange).insertionSort
    (fun a b => a.start ≤ b.start)

/-! ## `getISOWeekRange` (`src/services/timeService.ts`, lines 14-25) -/

/-- `getISOWeekRange(date)`: start is the Monday midnight of the date's week
(`day || 7``, so a Sunday rolls back 6 days via `setHours(-24 * (day - 1))`),
end is `start + 6` days at `23:59:59.999`. -/
def getISOWeekRange (t : Int) : Int × Int :=
  let day := if jsGetDay t = 0 then 7 else jsGetDay t
  let s1 := if day ≠ 1 then jsSetHours1 t (-24 * (day - 1)) else t
  let start := jsSetHours4 s1 0 0 0 0
  let e := start + 6 * msPerDay
  let endT := jsSetHours4 e 23 59 59 999
  (start, endT)

/-! ## `toggleTaskCompletion` (host mutation, `src/unnamed/part_001`) -/

/-- The completion toggle applied to a task's `completionHistory`: filter the
key out when present, append it when absent. -/
def toggleCompletion (history : List String) (key : String) : List String :=
  if history.contains key then history.filter (fun d => d != key)
  else history ++ [key]

/-! ## Concrete fixture records used in the closed statements below.
Timestamps are epoch-near for cheap kernel evaluation: day 5 (432000000 ms)
is Tuesday 1970-01-06. -/

/-- An active daily task whose `endDate` equals its `startDate`
(Tuesday 1970-01-06). -/
def dailyEndedTask : Task :=
  { id := "t1", title := "daily routine", status := TaskStatus.active,
    recurrence := RecurrenceType.daily, customDays := none, time := none,
    durationMinutes := 30, startDate := 432000000, endDate := some 432000000,
    completionHistory := [], color := none }

/-- An archived weekly task starting Tuesday 1970-01-06. -/
def archivedWeeklyTask : Task :=
  { id := "t2", title := "weekly routine", status := TaskStatus.archived,
    recurrence := RecurrenceType.weekly, customDays := none, time := none,
    durationMinutes := 30, startDate := 432000000, endDate := none,
    completionHistory := [], color := none }

/-- An active weekly task starting Tuesday 1970-01-06. -/
def weeklyTuesdayTask : Task :=
  { id := "t3", title := "weekly routine", status := TaskStatus.active,
    recurrence := RecurrenceType.weekly, customDays := none, time := none,
    durationMinutes := 30, startDate := 432000000, endDate := none,
    completionHistory := [], color := none }

/-- A pending assignment due inside the window `[432000000, 604800000]`. -/
def pendingAssignment : Assignment :=
  { id := "a1", courseId := "c1", title := "HW 1", dueDate := 500000000,
    status := AssignmentStatus.pending, weight := 10, type := "Homework" }

/-- A one-assignment state. -/
def oneAssignmentState : AppState :=
  { assignments := [pendingAssignment], courses := [], wellbeing := [], tasks := none }

/-! ## Basic facts about the modelled `Date` arithmetic -/

/-- A midnight is a whole number of days. -/
theorem jsMidnight_emod (t : Int) : jsMidnight t % 86400000 = 0 := by
  unfold jsMidnight jsDayNumber; omega

/-- The midnight of a timestamp bounds it from below, within one day. -/
theorem jsMidnight_le (t : Int) : jsMidnight t ≤ t ∧ t < jsMidnight t + 86400000 := by
  unfold jsMidnight jsDayNumber; omega

/-- Truncation to midnight is monotone. -/
theorem jsMidnight_mono {x y : Int} (h : x ≤ y) : jsMidnight x ≤ jsMidnight y := by
  unfold jsMidnight jsDayNumber; omega

/-- Truncation to midnight keeps the weekday. -/
theorem jsGetDay_jsMidnight (t : Int) : jsGetDay (jsMidnight t) = jsGetDay t := by
  unfold jsGetDay jsMidnight jsDayNumber; omega

/-! ## C2: the unified sequence is sorted ascending by start time -/

/-- C2: for every state and window, adjacent occurrences of
`getUnifiedEvents` are ordered by start time: the whole result is pairwise
sorted ascending by `start`. -/
theorem unify_sorted_by_start (data : AppState) (now startRange endRange : Int) :
    List.Pairwise (fun e1 e2 : CalendarEvent => e1.start ≤ e2.start)
      (getUnifiedEvents data now startRange endRange) := by
  unfold getUnifiedEvents
  haveI : IsTotal CalendarEvent (fun a b : CalendarEvent => a.start ≤ b.start) :=
    ⟨fun a b => Int.le_total _ _⟩
  haveI : IsTrans CalendarEvent (fun a b : CalendarEvent => a.start ≤ b.start) :=
    ⟨fun _ _ _ => le_trans⟩
  exact List.sorted_insertionSort _ _

/-! ## C7: the ISO week range -/

/-- C7: for every input timestamp, `getISOWeekRange` starts at a Monday
midnight at or before the input, ends exactly `7 days - 1 ms` later (the
following Sunday at 23:59:59.999), and the input lies inside the week. -/
theorem isoWeekRange_monday_to_sunday (t : Int) :
    jsGetDay (getISOWeekRange t).1 = 1 ∧
    (getISOWeekRange t).1 % msPerDay = 0 ∧
    (getISOWeekRange t).2 = (getISOWeekRange t).1 + 7 * msPerDay - 1 ∧
    jsGetDay (getISOWeekRange t).2 = 0 ∧
    (getISOWeekRange t).1 ≤ t ∧ t < (getISOWeekRange t).1 + 7 * msPerDay := by
  simp only [getISOWeekRange, jsSetHours4, jsSetHours1, jsGetDay, jsMidnight, jsDayNumber,
    msPerDay, msPerHour]
  split_ifs <;> refine ⟨by omega, by omega, by omega, by omega, by omega, by omega⟩

/-! ## C9: the completion toggle roundtrip -/

/-- C9: toggling a date key twice returns `completionHistory` to its original
set; one toggle flips membership of the key; and the `isCompleted` flag of the
occurrence materialized for a day is exactly membership of that day's date key
in the task's `completionHistory`. -/
theorem toggle_roundtrip (h : List String) (k : String) (task : Task) (d : Int) :
    (∀ x, x ∈ toggleCompletion (toggleCompletion h k) k ↔ x ∈ h) ∧
    ((toggleCompletion h k).contains k = !(h.contains k)) ∧
    ((taskEvent task d).isCompleted = task.completionHistory.contains (dateKey d)) := by
  refine ⟨?_, ?_, rfl⟩
  · intro x
    by_cases hk : k ∈ h
    · simp [toggleCompletion, hk, List.mem_filter]
      constructor
      · rintro (⟨hx, _⟩ | rfl)
        · exact hx
        · exact hk
      · intro hx
        by_cases hxk : x = k
        · exact Or.inr hxk
        · exact Or.inl ⟨hx, hxk⟩
    · simp [toggleCompletion, hk, List.mem_filter]
      intro hx
      rintro rfl
      exact hk hx
  · by_cases hk : k ∈ h
    · simp [toggleCompletion, hk, List.mem_filter]
    · simp [toggleCompletion, hk, List.mem_filter]

/-! ## C1: the missing `endDate` guard (source defect, spec flags it) -/

/-- C1: evaluated at a concrete daily task whose `endDate` equals its
`startDate` (Tuesday 1970-01-06), the expansion over a 3-day window emits
occurrences on the two days after `endDate`: the source never consults
`task.endDate`. -/
theorem generateTaskEvents_ignores_endDate :
    dailyEndedTask.endDate = some 432000000 ∧
    (generateTaskEvents [dailyEndedTask] 432000000 604800000).map
      (fun e => jsMidnight e.start) = [432000000, 518400000, 604800000] := by
  constructor
  · rfl
  · decide

/-! ## C4: the weekly/Tuesday/21-day fixture -/

/-- C4 counterexample: an archived weekly task starting on a Tuesday expands
to zero occurrences over the 21-day window beginning that Tuesday, not 3: the
claim's universal quantification over tasks fails for archived tasks. -/
theorem weekly_tuesday_fails_for_archived :
    archivedWeeklyTask.recurrence = RecurrenceType.weekly ∧
    jsGetDay archivedWeeklyTask.startDate = 2 ∧
    generateTaskEvents [archivedWeeklyTask] 432000000 2160000000 = [] := by
  refine ⟨by decide, by decide, by decide⟩

/-! ## The day-by-day iterator -/

/-- Characterization of the loop iterator's values: exactly the timestamps
between `s` and `endRange` that are a whole number of days from `s`. -/
theorem mem_iteratedDays {s e d : Int} :
    d ∈ iteratedDays s e ↔ s ≤ d ∧ d ≤ e ∧ (d - s) % 86400000 = 0 := by
  simp only [iteratedDays, List.mem_map, List.mem_range]
  constructor
  · rintro ⟨k, hk, rfl⟩
    unfold dayIterCount at hk
    split at hk
    · omega
    · omega
  · rintro ⟨h1, h2, h3⟩
    refine ⟨((d - s) / 86400000).toNat, ?_, ?_⟩
    · unfold dayIterCount
      split
      · omega
      · omega
    · omega

/-- Widening the day range (both endpoints midnights) keeps every iterated
day. -/
theorem iteratedDays_subset {s s2 e e2 : Int} (hs : s2 ≤ s) (he : e ≤ e2)
    (hmods : s % 86400000 = 0) (hmods2 : s2 % 86400000 = 0) :
    ∀ d ∈ iteratedDays s e, d ∈ iteratedDays s2 e2 := by
  intro d hd
  rw [mem_iteratedDays] at hd ⊢
  omega

/-! ## C8: degradation to the empty sequence -/

/-- A string without a digit has no time-regex match. -/
theorem findTimeMatch_eq_none {l : List Char} (h : l.all (fun ch => !ch.isDigit) = true) :
    findTimeMatch l = none := by
  induction l with
  | nil => rfl
  | cons c rest ih =>
    simp only [List.all_cons, Bool.and_eq_true, Bool.not_eq_true'] at h
    simp only [findTimeMatch, h.1, Bool.false_eq_true, if_false]
    exact ih h.2

/-- C8: the core entry points are total functions into (possibly empty)
sequences — never an error.  A schedule string holding no time token (no
digit, hence no regex match; this covers `""` and the sentinel `"TBA"`)
degrades to the empty occurrence list, and the unifier on a state with no
records returns the empty sequence for every window. -/
theorem parse_no_time_token_empty :
    (∀ (now : Int) (s courseName courseColor courseId : String),
      (lowerData s).all (fun ch => !ch.isDigit) = true →
      parseCourseSchedule now s courseName courseColor courseId = []) ∧
    (∀ (now a b : Int),
      getUnifiedEvents { assignments := [], courses := [], wellbeing := [], tasks := none }
        now a b = []) := by
  constructor
  · intro now s courseName courseColor courseId h
    simp only [parseCourseSchedule]
    split
    · rfl
    · rw [findTimeMatch_eq_none h]
  · intro now a b
    rfl

/-- Witness for C8 at the sentinel input `"TBA"` and the empty state. -/
theorem parse_no_time_token_empty_witness :
    ((lowerData "TBA").all (fun ch => !ch.isDigit) = true) ∧
    parseCourseSchedule 0 "TBA" "Networks" "#000000" "c1" = [] ∧
    getUnifiedEvents { assignments := [], courses := [], wellbeing := [], tasks := none }
      0 0 86400000 = [] :=
  ⟨by decide, parse_no_time_token_empty.1 0 "TBA" "Networks" "#000000" "c1" (by decide),
    parse_no_time_token_empty.2 0 0 86400000⟩

/-! ## C4 (amended): the weekly/Tuesday/21-day fixture for active tasks -/

/-- C4 as amended: for every ACTIVE task with weekly recurrence whose
`startDate` falls on a Tuesday (weekday 2), expanding over the 21-day window
beginning that same Tuesday yields exactly 3 occurrences, on the start day and
7 and 14 days later, each a Tuesday. -/
theorem weekly_tuesday_three_occurrences (task : Task) (sr er : Int)
    (hact : task.status = TaskStatus.active)
    (hrec : task.recurrence = RecurrenceType.weekly)
    (htue : jsGetDay task.startDate = 2)
    (hsr : jsMidnight sr = jsMidnight task.startDate)
    (her : jsMidnight er = jsMidnight sr + 20 * 86400000) :
    taskDays task sr er =
      [jsMidnight task.startDate, jsMidnight task.startDate + 604800000,
       jsMidnight task.startDate + 1209600000] ∧
    (generateTaskEvents [task] sr er).length = 3 ∧
    jsGetDay (jsMidnight task.startDate) = 2 ∧
    jsGetDay (jsMidnight task.startDate + 604800000) = 2 ∧
    jsGetDay (jsMidnight task.startDate + 1209600000) = 2 := by
  have hmax : jsMidnight (max sr task.startDate) = jsMidnight task.startDate := by
    rcases max_choice sr task.startDate with hc | hc <;> rw [hc]
    exact hsr
  have hcount : dayIterCount (jsMidnight task.startDate) er = 21 := by
    have h1 := jsMidnight_le er
    have her2 : jsMidnight er = jsMidnight task.startDate + 20 * 86400000 := by rw [her, hsr]
    simp only [dayIterCount, jsMidnight, jsDayNumber] at h1 her2 ⊢
    split <;> omega
  have hdays : taskDays task sr er =
      [jsMidnight task.startDate, jsMidnight task.startDate + 604800000,
       jsMidnight task.startDate + 1209600000] := by
    unfold taskDays iteratedDays
    rw [hmax, hcount, List.filter_map]
    have hfc : List.filter
        ((shouldRender task) ∘ (fun (k : Nat) => jsMidnight task.startDate + (k : Int) * 86400000))
        (List.range 21) = List.filter (fun k => decide (k % 7 = 0)) (List.range 21) := by
      apply List.filter_congr
      intro k _
      simp only [Function.comp_apply, Function.comp, shouldRender, hrec]
      rw [decide_eq_decide]
      simp only [jsGetDay, jsMidnight, jsDayNumber] at htue ⊢
      omega
    rw [hfc]
    have hexp : List.filter (fun k => decide (k % 7 = 0)) (List.range 21) = [0, 7, 14] := by
      decide
    rw [hexp]
    simp only [List.map, List.cons.injEq, and_true]
    refine ⟨by omega, by omega, by omega⟩
  refine ⟨hdays, ?_, ?_, ?_, ?_⟩
  · have hone : generateTaskEvents [task] sr er = (taskDays task sr er).map (taskEvent task) := by
      simp [generateTaskEvents, generateTaskEventsOne, hact]
    rw [hone, hdays]
    rfl
  · rw [jsGetDay_jsMidnight]; exact htue
  · simp only [jsGetDay, jsMidnight, jsDayNumber] at htue ⊢; omega
  · simp only [jsGetDay, jsMidnight, jsDayNumber] at htue ⊢; omega

/-- Witness for the amended C4 at a concrete active weekly Tuesday task. -/
theorem weekly_tuesday_three_occurrences_witness :
    taskDays weeklyTuesdayTask 432000000 2160000000 =
      [jsMidnight weeklyTuesdayTask.startDate, jsMidnight weeklyTuesdayTask.startDate + 604800000,
       jsMidnight weeklyTuesdayTask.startDate + 1209600000] ∧
    (generateTaskEvents [weeklyTuesdayTask] 432000000 2160000000).length = 3 ∧
    jsGetDay (jsMidnight weeklyTuesdayTask.startDate) = 2 ∧
    jsGetDay (jsMidnight weeklyTuesdayTask.startDate + 604800000) = 2 ∧
    jsGetDay (jsMidnight weeklyTuesdayTask.startDate + 1209600000) = 2 :=
  weekly_tuesday_three_occurrences weeklyTuesdayTask 432000000 2160000000
    (by decide) (by decide) (by decide) (by decide) (by decide)

/-! ## C5: course block timing -/

/-- A digit's value is nonnegative. -/
theorem digitVal_nonneg (c : Char) : 0 ≤ digitVal c := by
  unfold digitVal; omega

/-- The minutes group is nonnegative. -/
theorem minutesPart_nonneg (l : List Char) : 0 ≤ minutesPart l := by
  unfold minutesPart
  split
  next a b _ =>
    split
    · have ha := digitVal_nonneg a
      have hb := digitVal_nonneg b
      omega
    · omega
  next => omega

/-- Both components of a time match are nonnegative. -/
theorem timeFrom_nonneg (c : Char) (l : List Char) :
    0 ≤ (timeFrom c l).1 ∧ 0 ≤ (timeFrom c l).2 := by
  have hc := digitVal_nonneg c
  unfold timeFrom
  split
  next => exact ⟨hc, le_refl 0⟩
  next d rest =>
    split
    · have hd := digitVal_nonneg d
      have hm := minutesPart_nonneg rest
      constructor <;> simp <;> omega
    · have hm := minutesPart_nonneg (d :: rest)
      constructor <;> simp <;> omega

/-- A successful time match has nonnegative hours and minutes. -/
theorem findTimeMatch_nonneg {l : List Char} {h0 mi : Int}
    (h : findTimeMatch l = some (h0, mi)) : 0 ≤ h0 ∧ 0 ≤ mi := by
  induction l with
  | nil => simp [findTimeMatch] at h
  | cons c rest ih =>
    simp only [findTimeMatch] at h
    split at h
    · have hpair := timeFrom_nonneg c rest
      rw [Option.some.injEq] at h
      rw [h] at hpair
      exact hpair
    · exact ih h

/-- The converted 24-hour value is nonnegative when the raw hours are. -/
theorem convertHours_nonneg (p : Bool) {h0 : Int} (h : 0 ≤ h0) :
    0 ≤ convertHours p h0 := by
  unfold convertHours
  split_ifs <;> omega

/-- The `"Mon/Wed 10:00 AM"` schedule string parses to exactly the Monday and
Wednesday blocks of the current week at 10:00 (computation on the string
literal; the clock stays symbolic). -/
theorem parse_monwed (now : Int) (n c i : String) :
    parseCourseSchedule now "Mon/Wed 10:00 AM" n c i =
      [courseBlock (jsMidnight (now - jsGetDay now * msPerDay)) 10 0 n c i 1,
       courseBlock (jsMidnight (now - jsGetDay now * msPerDay)) 10 0 n c i 3] := rfl

/-- C5 as amended: the fixture `"Mon/Wed 10:00 AM"` yields exactly 2 blocks,
both 10:00-11:30 (so 90 minutes apart); and in general an emitted block ends
90 minutes after its start WHENEVER the parsed time does not overflow past
midnight (`hours * 3600000 + minutes * 60000 < 86400000`).  Without that
condition the `endDate.setHours(hours + 1, minutes + 30)` in the source is
taken relative to a rolled-over calendar day and the 90-minute spacing fails
(see the counterexample). -/
theorem parse_block_timing :
    (∀ (now : Int) (n c i : String),
      (parseCourseSchedule now "Mon/Wed 10:00 AM" n c i).map
        (fun e => (jsGetHours e.start, jsGetMinutes e.start,
                   jsGetHours e.«end», jsGetMinutes e.«end»)) =
        [(10, 0, 11, 30), (10, 0, 11, 30)] ∧
      (parseCourseSchedule now "Mon/Wed 10:00 AM" n c i).length = 2) ∧
    (∀ (now : Int) (s n c i : String) (e : CalendarEvent) (h0 mi : Int),
      e ∈ parseCourseSchedule now s n c i →
      findTimeMatch (lowerData s) = some (h0, mi) →
      convertHours (jsIncludes "pm".data (lowerData s)) h0 * 3600000 + mi * 60000 < 86400000 →
      e.«end» = e.start + 5400000) := by
  constructor
  · intro now n c i
    constructor
    · rw [parse_monwed]
      simp only [List.map, courseBlock, jsSetHours4, jsSetHours2, jsGetHours, jsGetMinutes,
        jsMidnight, jsDayNumber, jsGetDay, msPerDay, List.cons.injEq, Prod.mk.injEq, and_true]
      omega
    · rw [parse_monwed]
      rfl
  · intro now s n c i e h0 mi hmem hfind hlt
    simp only [parseCourseSchedule] at hmem
    split at hmem
    · simp at hmem
    · rw [hfind] at hmem
      simp only [List.mem_map] at hmem
      obtain ⟨d, _, rfl⟩ := hmem
      have hnn := findTimeMatch_nonneg hfind
      have hhr : 0 ≤ convertHours (jsIncludes "pm".data (lowerData s)) h0 :=
        convertHours_nonneg _ hnn.1
      simp only [courseBlock, jsSetHours4, jsSetHours2, jsMidnight, jsDayNumber,
        jsGetDay, msPerDay] at hlt hhr ⊢
      omega

/-- C5 counterexample: the schedule string `"25 m"` (hour token 25, Monday
fallback) produces a block whose end is 25 hours 30 minutes after its start,
not 1 hour 30 minutes: the unconditional 90-minute claim is false on the
source. -/
theorem parse_block_timing_counterexample :
    (parseCourseSchedule 259200000 "25 m" "Networking" "#000000" "c1").map
      (fun e => e.«end» - e.start) = [91800000] ∧ (91800000 : Int) ≠ 5400000 := by
  constructor
  · decide
  · decide

/-- Witness for C5 at the block emitted for `"Mon 10:00 AM"` in the week of a
concrete Sunday clock. -/
theorem parse_block_timing_witness :
    ({ id := "course_c9_1", title := "Nets", start := 381600000, «end» := 387000000,
       type := EventType.Course, color := "#111111", isCompleted := false,
       meta := EventMeta.course "c9" } : CalendarEvent).«end» =
    ({ id := "course_c9_1", title := "Nets", start := 381600000, «end» := 387000000,
       type := EventType.Course, color := "#111111", isCompleted := false,
       meta := EventMeta.course "c9" } : CalendarEvent).start + 5400000 :=
  parse_block_timing.2 259200000 "Mon 10:00 AM" "Nets" "#111111" "c9" _ 10 0
    (by decide) (by decide) (by decide)

/-! ## C3: window monotonicity of the unifier -/

/-- Widening the window keeps every assignment event (the event itself does
not depend on the window). -/
theorem assignmentEvents_mono {data : AppState} {a b a2 b2 : Int}
    (h1 : a2 ≤ a) (h2 : b ≤ b2) :
    ∀ e ∈ assignmentEvents data a b, e ∈ assignmentEvents data a2 b2 := by
  intro e he
  simp only [assignmentEvents, List.mem_filterMap] at he ⊢
  obtain ⟨x, hx, hfx⟩ := he
  refine ⟨x, hx, ?_⟩
  by_cases hst : x.status = AssignmentStatus.completed
  · rw [if_pos hst] at hfx
    cases hfx
  · rw [if_neg hst] at hfx ⊢
    by_cases hw : a ≤ x.dueDate ∧ x.dueDate ≤ b
    · rw [if_pos hw] at hfx
      rw [if_pos ⟨le_trans h1 hw.1, le_trans hw.2 h2⟩]
      exact hfx
    · rw [if_neg hw] at hfx
      cases hfx

/-- Widening the window keeps every wellbeing event. -/
theorem wellbeingEvents_mono {data : AppState} {a b a2 b2 : Int}
    (h1 : a2 ≤ a) (h2 : b ≤ b2) :
    ∀ e ∈ wellbeingEvents data a b, e ∈ wellbeingEvents data a2 b2 := by
  intro e he
  simp only [wellbeingEvents, List.mem_flatMap] at he ⊢
  obtain ⟨log, hlog, hin⟩ := he
  refine ⟨log, hlog, ?_⟩
  by_cases hw : a ≤ log.date ∧ log.date ≤ b
  · rw [if_pos hw] at hin
    rw [if_pos ⟨le_trans h1 hw.1, le_trans hw.2 h2⟩]
    exact hin
  · rw [if_neg hw] at hin
    cases hin

/-- Widening the window keeps every rendered day of a task. -/
theorem taskDays_mono {t : Task} {a b a2 b2 : Int} (h1 : a2 ≤ a) (h2 : b ≤ b2) :
    ∀ d ∈ taskDays t a b, d ∈ taskDays t a2 b2 := by
  intro d hd
  unfold taskDays at hd ⊢
  rw [List.mem_filter] at hd ⊢
  refine ⟨?_, hd.2⟩
  refine iteratedDays_subset ?_ h2 (jsMidnight_emod _) (jsMidnight_emod _) _ hd.1
  exact jsMidnight_mono (max_le_max h1 (le_refl _))

/-- Widening the window keeps every task event. -/
theorem generateTaskEvents_mono {tasks : List Task} {a b a2 b2 : Int}
    (h1 : a2 ≤ a) (h2 : b ≤ b2) :
    ∀ e ∈ generateTaskEvents tasks a b, e ∈ generateTaskEvents tasks a2 b2 := by
  intro e he
  simp only [generateTaskEvents, List.mem_flatMap] at he ⊢
  obtain ⟨t, ht, hin⟩ := he
  refine ⟨t, ht, ?_⟩
  unfold generateTaskEventsOne at hin ⊢
  by_cases hst : t.status = TaskStatus.archived
  · rw [if_pos hst] at hin
    cases hin
  · rw [if_neg hst] at hin ⊢
    rw [List.mem_map] at hin ⊢
    obtain ⟨d, hd, rfl⟩ := hin
    exact ⟨d, taskDays_mono h1 h2 d hd, rfl⟩

/-- Widening the window keeps every unified event. -/
theorem getUnifiedEvents_mono (data : AppState) (now a b a2 b2 : Int)
    (h1 : a2 ≤ a) (h2 : b ≤ b2) :
    ∀ e ∈ getUnifiedEvents data now a b, e ∈ getUnifiedEvents data now a2 b2 := by
  intro e he
  unfold getUnifiedEvents at he ⊢
  rw [(List.perm_insertionSort _ _).mem_iff] at he ⊢
  simp only [List.mem_append] at he ⊢
  rcases he with ((ha | hc) | hw) | ht
  · exact Or.inl (Or.inl (Or.inl (assignmentEvents_mono h1 h2 e ha)))
  · exact Or.inl (Or.inl (Or.inr hc))
  · exact Or.inl (Or.inr (wellbeingEvents_mono h1 h2 e hw))
  · exact Or.inr (generateTaskEvents_mono h1 h2 e ht)

/-- C3: for a fixed state and clock, widening the query window only grows the
set of occurrence ids: every id present for `[a, b]` is present for
`[a2, b2]` when `a2 ≤ a` and `b ≤ b2`. -/
theorem unify_window_monotone (data : AppState) (now a b a2 b2 : Int)
    (h1 : a2 ≤ a) (h2 : b ≤ b2) :
    ∀ i ∈ (getUnifiedEvents data now a b).map CalendarEvent.id,
      i ∈ (getUnifiedEvents data now a2 b2).map CalendarEvent.id := by
  intro i hi
  rw [List.mem_map] at hi ⊢
  obtain ⟨e, he, rfl⟩ := hi
  exact ⟨e, getUnifiedEvents_mono data now a b a2 b2 h1 h2 e he, rfl⟩

/-- Witness for C3: the pending assignment's id survives widening
`[432000000, 604800000]` to `[345600000, 691200000]`. -/
theorem unify_window_monotone_witness :
    "assign_a1" ∈ (getUnifiedEvents oneAssignmentState 0 345600000 691200000).map
      CalendarEvent.id :=
  unify_window_monotone oneAssignmentState 0 432000000 604800000 345600000 691200000
    (by decide) (by decide) "assign_a1" (by decide)

/-! ## C6: assignment occurrences -/

/-- Every course-pass event is typed `Course`. -/
theorem courseEvents_type {data : AppState} {now : Int} {e : CalendarEvent}
    (he : e ∈ courseEvents data now) : e.type = EventType.Course := by
  simp only [courseEvents, List.mem_flatMap] at he
  obtain ⟨c, _, hin⟩ := he
  rcases hsch : c.schedule with _ | s
  · rw [hsch] at hin
    cases hin
  · rw [hsch] at hin
    simp only [parseCourseSchedule] at hin
    split at hin
    · cases hin
    · rcases hf : findTimeMatch (lowerData s) with _ | ⟨h0, mi⟩
      · rw [hf] at hin
        cases hin
      · rw [hf] at hin
        rw [List.mem_map] at hin
        obtain ⟨d, _, rfl⟩ := hin
        rfl

/-- Every wellbeing-pass event is typed `Wellbeing`. -/
theorem wellbeingEvents_type {data : AppState} {a b : Int} {e : CalendarEvent}
    (he : e ∈ wellbeingEvents data a b) : e.type = EventType.Wellbeing := by
  simp only [wellbeingEvents, List.mem_flatMap] at he
  obtain ⟨log, _, hin⟩ := he
  split at hin
  · rw [List.mem_filterMap] at hin
    obtain ⟨p, _, hsome⟩ := hin
    rcases ht : p.2.time with _ | hm
    · rw [ht] at hsome
      cases hsome
    · rw [ht] at hsome
      rw [Option.some.injEq] at hsome
      rw [← hsome]
      rfl
  · cases hin

/-- Every task-pass event is typed `Task`. -/
theorem generateTaskEvents_type {tasks : List Task} {a b : Int} {e : CalendarEvent}
    (he : e ∈ generateTaskEvents tasks a b) : e.type = EventType.Task := by
  simp only [generateTaskEvents, List.mem_flatMap] at he
  obtain ⟨t, _, hin⟩ := he
  unfold generateTaskEventsOne at hin
  split at hin
  · cases hin
  · rw [List.mem_map] at hin
    obtain ⟨d, _, rfl⟩ := hin
    rfl

/-- Elimination for the assignment pass: every member comes from a concrete,
non-completed, in-window assignment. -/
theorem assignmentEvents_elim {data : AppState} {a b : Int} {e : CalendarEvent}
    (he : e ∈ assignmentEvents data a b) :
    ∃ x ∈ data.assignments, x.status ≠ AssignmentStatus.completed ∧
      a ≤ x.dueDate ∧ x.dueDate ≤ b ∧ e = assignmentEvent data x := by
  simp only [assignmentEvents, List.mem_filterMap] at he
  obtain ⟨x, hx, hfx⟩ := he
  by_cases hst : x.status = AssignmentStatus.completed
  · rw [if_pos hst] at hfx
    cases hfx
  · rw [if_neg hst] at hfx
    by_cases hw : a ≤ x.dueDate ∧ x.dueDate ≤ b
    · rw [if_pos hw] at hfx
      rw [Option.some.injEq] at hfx
      exact ⟨x, hx, hst, hw.1, hw.2, hfx.symm⟩
    · rw [if_neg hw] at hfx
      cases hfx

/-- Prefixing with `"assign_"` is injective on ids. -/
theorem assign_prefix_inj {x y : String} (h : "assign_" ++ x = "assign_" ++ y) : x = y := by
  have hd := congrArg String.data h
  simp only [String.data_append] at hd
  exact String.ext (List.append_cancel_left hd)

/-- C6: an assignment contributes an occurrence to `getUnifiedEvents` exactly
when its status is not `completed` and its due date lies in the closed query
window; in particular a completed assignment never appears. -/
theorem assignment_occurrence_iff (data : AppState) (now startRange endRange : Int)
    (a : Assignment) (ha : a ∈ data.assignments)
    (hnd : (data.assignments.map Assignment.id).Nodup) :
    (∃ e ∈ getUnifiedEvents data now startRange endRange,
        e.type = EventType.Assignment ∧ e.id = "assign_" ++ a.id) ↔
      (a.status ≠ AssignmentStatus.completed ∧
       startRange ≤ a.dueDate ∧ a.dueDate ≤ endRange) := by
  constructor
  · rintro ⟨e, he, htype, hid⟩
    rw [getUnifiedEvents, (List.perm_insertionSort _ _).mem_iff] at he
    simp only [List.mem_append] at he
    rcases he with ((h1 | h2) | h3) | h4
    · obtain ⟨x, hx, hxs, hxw1, hxw2, rfl⟩ := assignmentEvents_elim h1
      have hxid : x.id = a.id := by
        apply assign_prefix_inj
        exact hid
      have hxa : x = a := List.inj_on_of_nodup_map hnd hx ha hxid
      rw [hxa] at hxs hxw1 hxw2
      exact ⟨hxs, hxw1, hxw2⟩
    · have hc := courseEvents_type h2
      rw [htype] at hc
      cases hc
    · have hc := wellbeingEvents_type h3
      rw [htype] at hc
      cases hc
    · have hc := generateTaskEvents_type h4
      rw [htype] at hc
      cases hc
  · rintro ⟨hs, h1, h2⟩
    refine ⟨assignmentEvent data a, ?_, rfl, rfl⟩
    rw [getUnifiedEvents, (List.perm_insertionSort _ _).mem_iff]
    simp only [List.mem_append]
    refine Or.inl (Or.inl (Or.inl ?_))
    simp only [assignmentEvents, List.mem_filterMap]
    refine ⟨a, ha, ?_⟩
    rw [if_neg hs, if_pos ⟨h1, h2⟩]

/-- Witness for C6: the concrete pending assignment is emitted, and the
theorem's forward direction recovers its status and window bounds. -/
theorem assignment_occurrence_iff_witness :
    pendingAssignment.status ≠ AssignmentStatus.completed ∧
    (432000000 : Int) ≤ pendingAssignment.dueDate ∧
    pendingAssignment.dueDate ≤ 604800000 :=
  (assignment_occurrence_iff oneAssignmentState 0 432000000 604800000 pendingAssignment
    (by decide) (by decide)).mp (by decide)

/-! ## C10: the `"pm"` fallback matches Monday -/

/-- A prefix of the scanned list is found by the substring scan. -/
theorem jsIncludes_of_isPrefixOf {xs l : List Char} (h : xs.isPrefixOf l = true) :
    jsIncludes xs l = true := by
  cases l with
  | nil =>
    cases xs with
    | nil => rfl
    | cons c cs => simp [List.isPrefixOf] at h
  | cons c rest => simp [jsIncludes, h]

/-- If `"pm"` occurs as a substring, so does `"m"` (the `'m'` inside it). -/
theorem jsIncludes_m_of_pm {l : List Char} (h : jsIncludes "pm".data l = true) :
    jsIncludes ['m'] l = true := by
  have hp : jsIncludes ['p', 'm'] l = true := h
  clear h
  induction l with
  | nil => simp [jsIncludes] at hp
  | cons c rest ih =>
    simp only [jsIncludes, Bool.or_eq_true] at hp ⊢
    rcases hp with hp | hp
    · right
      cases rest with
      | nil => simp [List.isPrefixOf] at hp
      | cons d t =>
        simp only [List.isPrefixOf, Bool.and_eq_true, beq_iff_eq] at hp
        apply jsIncludes_of_isPrefixOf
        simp only [List.isPrefixOf, Bool.and_eq_true, beq_iff_eq]
        exact hp.2
    · exact Or.inr (ih hp)

/-- A list holding a digit yields a time match. -/
theorem findTimeMatch_isSome {l : List Char} (h : l.any Char.isDigit = true) :
    ∃ h0 mi, findTimeMatch l = some (h0, mi) := by
  induction l with
  | nil => simp at h
  | cons c rest ih =>
    by_cases hc : c.isDigit
    · exact ⟨(timeFrom c rest).1, (timeFrom c rest).2, by simp [findTimeMatch, hc]⟩
    · simp only [List.any_cons, Bool.or_eq_true] at h
      rcases h with h | h
      · exact absurd h hc
      · obtain ⟨h0, mi, hf⟩ := ih h
        exact ⟨h0, mi, by simp [findTimeMatch, hc, hf]⟩

/-- A non-matching key leaves the weekday fold unchanged. -/
theorem foldl_days_skip {cond : String × Int → Bool} {p : String × Int}
    {l : List (String × Int)} {acc : List Int} (h : cond p = false) :
    List.foldl (fun acc q => if cond q then pushUnique acc q.2 else acc) acc (p :: l) =
    List.foldl (fun acc q => if cond q then pushUnique acc q.2 else acc) acc l := by
  simp [List.foldl_cons, h]

/-- A matching key pushes its weekday into the fold's accumulator. -/
theorem foldl_days_take {cond : String × Int → Bool} {p : String × Int}
    {l : List (String × Int)} {acc : List Int} (h : cond p = true) :
    List.foldl (fun acc q => if cond q then pushUnique acc q.2 else acc) acc (p :: l) =
    List.foldl (fun acc q => if cond q then pushUnique acc q.2 else acc)
      (pushUnique acc p.2) l := by
  simp [List.foldl_cons, h]

/-- Accumulated weekdays survive the rest of the fold. -/
theorem mem_foldl_pushUnique {cond : String × Int → Bool} (l : List (String × Int)) :
    ∀ (acc : List Int) (x : Int), x ∈ acc →
      x ∈ List.foldl (fun acc q => if cond q then pushUnique acc q.2 else acc) acc l := by
  induction l with
  | nil => intro acc x hx; exact hx
  | cons p rest ih =>
    intro acc x hx
    rw [List.foldl_cons]
    apply ih
    split
    · unfold pushUnique
      split
      · exact hx
      · exact List.mem_append_left _ hx
    · exact hx

/-- When no three-letter weekday abbreviation occurs but `'m'` does, the
two-pass weekday scan falls through to the single-letter pass and selects
Monday (index 1). -/
theorem scheduleActiveDays_no_abbrev {lower : List Char}
    (habbr : ∀ key ∈ (["sun", "mon", "tue", "wed", "thu", "fri", "sat"] : List String),
      jsIncludes key.data lower = false)
    (hm : jsIncludes ['m'] lower = true) :
    1 ∈ scheduleActiveDays lower := by
  have hsun := habbr "sun" (by decide)
  have hmon := habbr "mon" (by decide)
  have htue := habbr "tue" (by decide)
  have hwed := habbr "wed" (by decide)
  have hthu := habbr "thu" (by decide)
  have hfri := habbr "fri" (by decide)
  have hsat := habbr "sat" (by decide)
  unfold scheduleActiveDays daysMap
  rw [foldl_days_skip (by simp [hsun]), foldl_days_skip (by simp [hmon]),
    foldl_days_skip (by simp [htue]), foldl_days_skip (by simp [hwed]),
    foldl_days_skip (by simp [hthu]), foldl_days_skip (by simp [hfri]),
    foldl_days_skip (by simp [hsat]),
    foldl_days_skip (Bool.and_eq_false_iff.mpr (Or.inl (by decide))),
    foldl_days_skip (Bool.and_eq_false_iff.mpr (Or.inl (by decide))),
    foldl_days_skip (Bool.and_eq_false_iff.mpr (Or.inl (by decide))),
    foldl_days_skip (Bool.and_eq_false_iff.mpr (Or.inl (by decide))),
    foldl_days_skip (Bool.and_eq_false_iff.mpr (Or.inl (by decide)))]
  simp only [List.foldl_nil, List.isEmpty_nil, if_true]
  rw [foldl_days_skip (Bool.and_eq_false_iff.mpr (Or.inl (by decide))),
    foldl_days_skip (Bool.and_eq_false_iff.mpr (Or.inl (by decide))),
    foldl_days_skip (Bool.and_eq_false_iff.mpr (Or.inl (by decide))),
    foldl_days_skip (Bool.and_eq_false_iff.mpr (Or.inl (by decide))),
    foldl_days_skip (Bool.and_eq_false_iff.mpr (Or.inl (by decide))),
    foldl_days_skip (Bool.and_eq_false_iff.mpr (Or.inl (by decide))),
    foldl_days_skip (Bool.and_eq_false_iff.mpr (Or.inl (by decide))),
    foldl_days_take (by rw [Bool.and_eq_true]; exact ⟨by decide, hm⟩)]
  exact mem_foldl_pushUnique _ _ 1 (by decide)

/-- C10: a schedule string holding a time token and the substring `"pm"` but
no three-letter weekday abbreviation produces an occurrence with weekday
index 1 (Monday): the fallback single-letter scan matches the `'m'` of
`"pm"`. -/
theorem parse_pm_fallback_monday (now : Int) (s n c i : String)
    (hdig : (lowerData s).any Char.isDigit = true)
    (hpm : jsIncludes "pm".data (lowerData s) = true)
    (habbr : ∀ key ∈ (["sun", "mon", "tue", "wed", "thu", "fri", "sat"] : List String),
      jsIncludes key.data (lowerData s) = false) :
    "course_" ++ i ++ "_" ++ toString (1 : Int) ∈
      (parseCourseSchedule now s n c i).map CalendarEvent.id := by
  have hne : ¬(s = "" ∨ s = "TBA") := by
    rintro (rfl | rfl)
    · exact absurd hpm (by decide)
    · exact absurd hpm (by decide)
  obtain ⟨h0, mi, hfind⟩ := findTimeMatch_isSome hdig
  have h1mem : 1 ∈ scheduleActiveDays (lowerData s) :=
    scheduleActiveDays_no_abbrev habbr (jsIncludes_m_of_pm hpm)
  have hblock : courseBlock (jsMidnight (now - jsGetDay now * msPerDay))
      (convertHours (jsIncludes "pm".data (lowerData s)) h0) mi n c i 1 ∈
      parseCourseSchedule now s n c i := by
    simp only [parseCourseSchedule]
    rw [if_neg hne, hfind]
    exact List.mem_map_of_mem _ h1mem
  exact List.mem_map_of_mem CalendarEvent.id hblock

/-- Witness for C10 at the schedule string `"7:00 pm"`. -/
theorem parse_pm_fallback_monday_witness :
    "course_" ++ "c7" ++ "_" ++ toString (1 : Int) ∈
      (parseCourseSchedule 0 "7:00 pm" "Night" "#222222" "c7").map CalendarEvent.id :=
  parse_pm_fallback_monday 0 "7:00 pm" "Night" "#222222" "c7"
    (by decide) (by decide) (by decide)

end Konka
